import Mathlib

/-!
# Verification of `scripts/build.py` (daily-hub)

Shallow embedding, in Lean 4, of the URL ingestion / history-ledger /
enrichment-cache / rendering pipeline of `scripts/build.py`, together with
proofs of the specified properties.

Conventions of the embedding:
* Python strings are Lean `String`s; slicing `s[:n]` is `String.take`.
* File and network I/O is lifted to explicit arguments: functions that read
  files take the file's parsed content as a parameter, and functions that
  perform HTTP requests take the response (or the raising of an exception,
  as `Except`) as an oracle parameter.
* Python `dict` (with its insertion-order iteration) is an association list.
* `datetime` instants are integer seconds on the proleptic Gregorian
  calendar (`date.toordinal` arithmetic), which is exact for the day-level
  comparisons the script performs.
-/

/-- The set of characters stripped by Python's `str.strip()` and matched by
the regex class `\s` on `str` patterns: ASCII whitespace, the ASCII
separator control characters, and the Unicode space characters. -/
def pySpace (c : Char) : Bool :=
  let n := c.toNat
  decide ((9 ≤ n ∧ n ≤ 13) ∨ (28 ≤ n ∧ n ≤ 31) ∨ n = 32 ∨ n = 0x85 ∨ n = 0xA0 ∨
    n = 0x1680 ∨ (0x2000 ≤ n ∧ n ≤ 0x200A) ∨ n = 0x2028 ∨ n = 0x2029 ∨
    n = 0x202F ∨ n = 0x205F ∨ n = 0x3000)

/-- Python `str.strip()`: remove leading and trailing whitespace. -/
def pyStrip (s : String) : String :=
  String.mk (((s.toList.dropWhile pySpace).reverse.dropWhile pySpace).reverse)

/-- Python `re.sub(r"\s+", "", u)`: delete every whitespace character. -/
def removeAllWhitespace (s : String) : String :=
  String.mk (s.toList.filter (fun c => !pySpace c))

/-- `normalize_url` (build.py lines 89-92): strip the string, then delete all
remaining whitespace. -/
def normalize_url (u : String) : String :=
  removeAllWhitespace (pyStrip u)

/-- ASCII lower-casing of one character (used where the script calls
`str.lower()` on hostnames and header names; non-ASCII case folding does not
arise for the values compared there). -/
def asciiLower (c : Char) : Char :=
  if 'A' ≤ c ∧ c ≤ 'Z' then Char.ofNat (c.toNat + 32) else c

/-- Python `s.lower()` restricted to ASCII letters. -/
def strLower (s : String) : String :=
  String.mk (s.toList.map asciiLower)

/-- `URL_RE.match(s)` for `URL_RE = re.compile(r"^https?://", re.I)`:
the string starts with `http`, an optional `s`, then `://`, case-insensitively
on the letters. -/
def urlReMatch (s : String) : Bool :=
  match s.toList with
  | a :: b :: c :: d :: rest =>
    if asciiLower a = 'h' ∧ asciiLower b = 't' ∧ asciiLower c = 't' ∧ asciiLower d = 'p' then
      match rest with
      | e :: rest2 =>
        if asciiLower e = 's' then
          (rest2.take 3 = [':', '/', '/']) || (rest.take 3 = [':', '/', '/'])
        else rest.take 3 = [':', '/', '/']
      | [] => false
    else false
  | _ => false

/-- The recursion of `dedupe_preserve_order` (build.py lines 116-127): walk
the input keeping a `seen` set; skip URLs that normalize to the empty string
and normalized URLs already seen, otherwise emit the normalized URL. -/
def dedupeGo (seen : List String) : List String → List String
  | [] => []
  | u :: rest =>
    let nu := normalize_url u
    if nu = "" then dedupeGo seen rest
    else if nu ∈ seen then dedupeGo seen rest
    else nu :: dedupeGo (nu :: seen) rest

/-- `dedupe_preserve_order` (build.py lines 116-127). -/
def dedupe_preserve_order (urls : List String) : List String :=
  dedupeGo [] urls

/-- Spec-side definition, following the words of the specification: the
first occurrences of a list, in input order (each element keeps its first
occurrence and later repeats are dropped). Used to state that
`dedupe_preserve_order` returns "the normalized first occurrences of the
input, in input order". -/
def specFirstOccurrences : List String → List String
  | [] => []
  | x :: xs => x :: specFirstOccurrences (xs.filter (fun y => y ≠ x))
termination_by l => l.length
decreasing_by
  simp_wf
  exact Nat.lt_succ_of_le (List.length_filter_le _ _)

example : dedupe_preserve_order ["https://a.com/x", "https://a.com/x ", " "] =
    ["https://a.com/x"] := by decide

example : specFirstOccurrences ["a", "b", "a", "c", "b"] = ["a", "b", "c"] := by
  simp [specFirstOccurrences]

lemma mem_specFirstOccurrences (a : String) :
    ∀ l : List String, a ∈ specFirstOccurrences l ↔ a ∈ l := by
  intro l
  induction l using specFirstOccurrences.induct with
  | case1 => simp [specFirstOccurrences]
  | case2 x xs ih =>
    rw [specFirstOccurrences]
    simp only [List.mem_cons, ih, List.mem_filter]
    constructor
    · rintro (h | ⟨h, _⟩)
      · exact Or.inl h
      · exact Or.inr h
    · rintro (h | h)
      · exact Or.inl h
      · by_cases hx : a = x
        · exact Or.inl hx
        · exact Or.inr ⟨h, by simpa using hx⟩

lemma nodup_specFirstOccurrences : ∀ l : List String, (specFirstOccurrences l).Nodup := by
  intro l
  induction l using specFirstOccurrences.induct with
  | case1 => simp [specFirstOccurrences]
  | case2 x xs ih =>
    rw [specFirstOccurrences]
    refine List.nodup_cons.2 ⟨?_, ih⟩
    intro hmem
    have := (mem_specFirstOccurrences x _).1 hmem
    simp [List.mem_filter] at this

lemma filter_not_mem_cons (x : String) (seen : List String) (l : List String) :
    l.filter (fun y => y ∉ (x :: seen)) =
      (l.filter (fun y => y ∉ seen)).filter (fun y => y ≠ x) := by
  rw [List.filter_filter]
  apply List.filter_congr
  intro a _
  by_cases h1 : a = x <;> by_cases h2 : a ∈ seen <;> simp [h1, h2, List.mem_cons]

lemma dedupeGo_eq (l : List String) : ∀ seen : List String,
    dedupeGo seen l =
      specFirstOccurrences
        (((l.map normalize_url).filter (fun y => y ≠ "")).filter (fun y => y ∉ seen)) := by
  induction l with
  | nil => intro seen; simp [dedupeGo, specFirstOccurrences]
  | cons u rest ih =>
    intro seen
    by_cases h1 : normalize_url u = ""
    · simp [dedupeGo, h1, List.filter_cons, ih]
    · by_cases h2 : normalize_url u ∈ seen
      · simp [dedupeGo, h1, h2, List.filter_cons, ih]
      · rw [show dedupeGo seen (u :: rest) =
              normalize_url u :: dedupeGo (normalize_url u :: seen) rest by
            simp [dedupeGo, h1, h2]]
        rw [ih (normalize_url u :: seen)]
        rw [show ((u :: rest).map normalize_url).filter (fun y => y ≠ "") =
              normalize_url u :: ((rest.map normalize_url).filter (fun y => y ≠ "")) by
            simp [List.filter_cons, h1]]
        rw [show (normalize_url u :: ((rest.map normalize_url).filter (fun y => y ≠ ""))).filter
              (fun y => y ∉ seen) =
              normalize_url u ::
                (((rest.map normalize_url).filter (fun y => y ≠ "")).filter
                  (fun y => y ∉ seen)) by
            simp [List.filter_cons, h2]]
        rw [specFirstOccurrences, filter_not_mem_cons]

lemma dedupe_preserve_order_eq (urls : List String) :
    dedupe_preserve_order urls =
      specFirstOccurrences ((urls.map normalize_url).filter (fun y => y ≠ "")) := by
  rw [dedupe_preserve_order, dedupeGo_eq]
  congr 1
  simp

/-- C1: `dedupe_preserve_order` returns a duplicate-free list that is exactly
the normalized first occurrences of the input, in input order (URLs that
normalize to the empty string are not URLs and are dropped; when every input
normalizes to a nonempty string the output is exactly the first occurrences of
the normalized input). -/
theorem dedupe_preserve_order_correct (urls : List String) :
    (dedupe_preserve_order urls).Nodup ∧
    dedupe_preserve_order urls =
      specFirstOccurrences ((urls.map normalize_url).filter (fun y => y ≠ "")) ∧
    ((∀ u ∈ urls, normalize_url u ≠ "") →
      dedupe_preserve_order urls = specFirstOccurrences (urls.map normalize_url)) := by
  refine ⟨?_, dedupe_preserve_order_eq urls, ?_⟩
  · rw [dedupe_preserve_order_eq]; exact nodup_specFirstOccurrences _
  · intro h
    rw [dedupe_preserve_order_eq]
    congr 1
    exact List.filter_eq_self.2 (by
      intro a ha
      rcases List.mem_map.1 ha with ⟨u, hu, rfl⟩
      simpa using h u hu)

/-- Witness for C1 at a concrete input with a repeat. -/
theorem dedupe_preserve_order_correct_witness :
    (∀ u ∈ ["https://a.com/x", "https://a.com/x", "https://b.com"], normalize_url u ≠ "") ∧
    dedupe_preserve_order ["https://a.com/x", "https://a.com/x", "https://b.com"] =
      specFirstOccurrences
        (["https://a.com/x", "https://a.com/x", "https://b.com"].map normalize_url) :=
  ⟨by decide, (dedupe_preserve_order_correct _).2.2 (by decide)⟩

/-- The loop of `update_history_with_today` (build.py lines 150-164): walk
today's input URLs, appending `(today, u)` for each `u` not in the `existing`
set and recording whether anything was appended. The file write is modelled
by the returned `changed` flag: the ledger file is rewritten iff it is true. -/
def uhGo (today : String) (hist : List (String × String)) (existing : List String)
    (changed : Bool) : List String → List (String × String) × Bool
  | [] => (hist, changed)
  | u :: rest =>
    if u ∈ existing then uhGo today hist existing changed rest
    else uhGo today (hist ++ [(today, u)]) (u :: existing) true rest

/-- `update_history_with_today` (build.py lines 150-164), with the ledger read
from `history.csv` passed explicitly as `history`. Returns the new ledger and
the `changed` flag that guards the write-back. -/
def update_history_with_today (history : List (String × String)) (input_urls : List String)
    (today : String) : List (String × String) × Bool :=
  uhGo today history (history.map Prod.snd) false input_urls

lemma specFirstOccurrences_eq_nil_iff (l : List String) :
    specFirstOccurrences l = [] ↔ l = [] := by
  cases l with
  | nil => simp [specFirstOccurrences]
  | cons x xs => rw [specFirstOccurrences]; simp

lemma uhGo_eq (today : String) (urls : List String) :
    ∀ (hist : List (String × String)) (existing : List String) (changed : Bool),
    uhGo today hist existing changed urls =
      (hist ++ (specFirstOccurrences (urls.filter (fun u => u ∉ existing))).map
          (fun u => (today, u)),
       changed || !(urls.filter (fun u => u ∉ existing)).isEmpty) := by
  induction urls with
  | nil => intro hist existing changed; simp [uhGo, specFirstOccurrences]
  | cons u rest ih =>
    intro hist existing changed
    by_cases h : u ∈ existing
    · rw [show uhGo today hist existing changed (u :: rest) =
            uhGo today hist existing changed rest by simp [uhGo, h]]
      rw [ih]
      simp [List.filter_cons, h]
    · rw [show uhGo today hist existing changed (u :: rest) =
            uhGo today (hist ++ [(today, u)]) (u :: existing) true rest by simp [uhGo, h]]
      rw [ih]
      rw [show (u :: rest).filter (fun y => y ∉ existing) =
            u :: rest.filter (fun y => y ∉ existing) by simp [List.filter_cons, h]]
      rw [specFirstOccurrences, filter_not_mem_cons]
      simp

/-- C2: the merged ledger is the old ledger (unchanged, as a prefix) followed
exactly by `(today, u)` rows for the first occurrences of input URLs not
already present (by exact string equality); uniqueness of URLs is preserved;
and the `changed` flag that triggers the file rewrite is set iff at least one
row was appended. -/
theorem update_history_with_today_correct (history : List (String × String))
    (input_urls : List String) (today : String) :
    (update_history_with_today history input_urls today).1 =
      history ++
        (specFirstOccurrences (input_urls.filter (fun u => u ∉ history.map Prod.snd))).map
          (fun u => (today, u)) ∧
    ((update_history_with_today history input_urls today).2 = true ↔
      (specFirstOccurrences (input_urls.filter (fun u => u ∉ history.map Prod.snd))).map
          (fun u => (today, u)) ≠ []) ∧
    ((history.map Prod.snd).Nodup →
      ((update_history_with_today history input_urls today).1.map Prod.snd).Nodup) := by
  have hmain := uhGo_eq today input_urls history (history.map Prod.snd) false
  refine ⟨?_, ?_, ?_⟩
  · rw [update_history_with_today, hmain]
  · rw [update_history_with_today, hmain]
    cases hfe : input_urls.filter (fun u => u ∉ history.map Prod.snd) with
    | nil => simp [specFirstOccurrences]
    | cons a l => simp [specFirstOccurrences]
  · intro hnd
    rw [update_history_with_today, hmain]
    simp only [List.map_append, List.map_map]
    rw [List.nodup_append]
    refine ⟨hnd, ?_, ?_⟩
    · have : (List.map (Prod.snd ∘ fun u => (today, u))
          (specFirstOccurrences (input_urls.filter (fun u => u ∉ history.map Prod.snd)))) =
          specFirstOccurrences (input_urls.filter (fun u => u ∉ history.map Prod.snd)) := by
        simp
      rw [this]
      exact nodup_specFirstOccurrences _
    · intro a ha hb
      simp only [List.mem_map, Function.comp] at hb
      rcases hb with ⟨b, hb, rfl⟩
      have := (mem_specFirstOccurrences b _).1 hb
      rcases List.mem_filter.1 this with ⟨_, hnot⟩
      have hb2 : b ∉ history.map Prod.snd := by simpa using hnot
      exact hb2 ha

/-- Witness for C2 at a concrete ledger and input list. -/
theorem update_history_with_today_correct_witness :
    ([("2026-01-01", "https://a.com")].map (Prod.snd (α := String))).Nodup ∧
    ((update_history_with_today [("2026-01-01", "https://a.com")]
        ["https://a.com", "https://b.com"] "2026-02-02").1.map Prod.snd).Nodup :=
  ⟨by decide,
   (update_history_with_today_correct [("2026-01-01", "https://a.com")]
      ["https://a.com", "https://b.com"] "2026-02-02").2.2 (by decide)⟩

/-- C3: merging twice with the same input and date is idempotent — the second
run returns the first run's ledger unchanged and does not set the `changed`
flag (so it adds no rows and does not rewrite the file). -/
theorem update_history_with_today_idempotent (history : List (String × String))
    (input_urls : List String) (today : String) :
    update_history_with_today
        (update_history_with_today history input_urls today).1 input_urls today =
      ((update_history_with_today history input_urls today).1, false) := by
  have h1 := uhGo_eq today input_urls history (history.map Prod.snd) false
  set H1 := (update_history_with_today history input_urls today).1 with hH1
  have hurls : ∀ u ∈ input_urls, u ∈ H1.map Prod.snd := by
    intro u hu
    rw [hH1, update_history_with_today, h1]
    simp only [List.map_append, List.map_map, List.mem_append]
    by_cases hin : u ∈ history.map Prod.snd
    · exact Or.inl hin
    · refine Or.inr ?_
      have : u ∈ specFirstOccurrences (input_urls.filter (fun v => v ∉ history.map Prod.snd)) := by
        rw [mem_specFirstOccurrences]
        exact List.mem_filter.2 ⟨hu, by simpa using hin⟩
      exact List.mem_map.2 ⟨u, this, rfl⟩
  have hfil : input_urls.filter (fun u => u ∉ H1.map Prod.snd) = [] := by
    rw [List.filter_eq_nil_iff]
    intro a ha
    simpa using hurls a ha
  rw [update_history_with_today, uhGo_eq, hfil]
  simp [specFirstOccurrences]

/-- Python `s.split(",")`: split at every comma, keeping empty pieces. -/
def splitCommaGo (cur : List Char) : List Char → List (List Char)
  | [] => [cur.reverse]
  | c :: rest =>
    if c = ',' then cur.reverse :: splitCommaGo [] rest
    else splitCommaGo (c :: cur) rest

/-- Python `s.split(",")` on strings. -/
def pySplitComma (s : String) : List String :=
  (splitCommaGo [] s.toList).map String.mk

/-- The loop of `read_input_urls` (build.py lines 94-114) over the lines of
`daily.csv` (the file content is passed as the list of its lines; `i` is the
`enumerate` index): strip each line, skip blanks and a leading `url` header,
recover the URL from legacy `date,url` rows, and keep only lines matching
`^https?://`. -/
def readGo : Nat → List String → List String
  | _, [] => []
  | i, raw :: rest =>
    let s := pyStrip raw
    if s = "" then readGo (i + 1) rest
    else if i = 0 ∧ strLower s = "url" then readGo (i + 1) rest
    else
      let s2 :=
        if s.toList.contains ',' ∧ ¬ urlReMatch s then
          let parts := ((pySplitComma s).map pyStrip).filter (fun p => p ≠ "")
          match parts.getLast? with
          | some lastp => if urlReMatch lastp then lastp else s
          | none => s
        else s
      if urlReMatch s2 then s2 :: readGo (i + 1) rest else readGo (i + 1) rest

/-- `read_input_urls` (build.py lines 94-114), with the lines of `daily.csv`
passed explicitly. -/
def read_input_urls (lines : List String) : List String :=
  readGo 0 lines

/-- C7: on the input lines `["https://a.com/x", "https://a.com/x ", "not-a-url"]`
the ingestion pipeline (`read_input_urls` then `dedupe_preserve_order`)
produces exactly `["https://a.com/x"]`: the whitespace variant collapses to
the same URL and the non-URL line is silently dropped. -/
theorem ingestion_example :
    dedupe_preserve_order
        (read_input_urls ["https://a.com/x", "https://a.com/x ", "not-a-url"]) =
      ["https://a.com/x"] := by decide

lemma filter_not_pySpace_dropWhile (l : List Char) :
    (l.dropWhile pySpace).filter (fun c => !pySpace c) = l.filter (fun c => !pySpace c) := by
  induction l with
  | nil => rfl
  | cons c l ih =>
    by_cases h : pySpace c
    · simp [List.dropWhile_cons, h, ih, List.filter_cons]
    · simp [List.dropWhile_cons, h, List.filter_cons]

lemma normalize_url_eq_filter (s : String) :
    normalize_url s = String.mk (s.toList.filter (fun c => !pySpace c)) := by
  rw [normalize_url, pyStrip, removeAllWhitespace]
  congr 1
  show (((s.toList.dropWhile pySpace).reverse.dropWhile pySpace).reverse).filter
      (fun c => !pySpace c) = _
  rw [List.filter_reverse, filter_not_pySpace_dropWhile, List.filter_reverse,
    List.reverse_reverse, filter_not_pySpace_dropWhile]

/-- C9: `normalize_url` deletes every whitespace character, including interior
whitespace: it equals filtering all whitespace out of the string, its result
contains no whitespace, two strings with the same non-whitespace characters in
the same order normalize identically, and a whitespace-only string normalizes
to the empty string and is then dropped entirely by `dedupe_preserve_order`. -/
theorem normalize_url_whitespace (s t : String) :
    normalize_url s = String.mk (s.toList.filter (fun c => !pySpace c)) ∧
    (∀ c ∈ (normalize_url s).toList, pySpace c = false) ∧
    (s.toList.filter (fun c => !pySpace c) = t.toList.filter (fun c => !pySpace c) →
      normalize_url s = normalize_url t) ∧
    ((∀ c ∈ s.toList, pySpace c = true) →
      normalize_url s = "" ∧
        ∀ urls, dedupe_preserve_order (s :: urls) = dedupe_preserve_order urls) := by
  refine ⟨normalize_url_eq_filter s, ?_, ?_, ?_⟩
  · intro c hc
    rw [normalize_url_eq_filter] at hc
    have : c ∈ s.toList.filter (fun c => !pySpace c) := hc
    have := List.of_mem_filter this
    simpa using this
  · intro h
    rw [normalize_url_eq_filter, normalize_url_eq_filter, h]
  · intro h
    have hfil : s.toList.filter (fun c => !pySpace c) = [] := by
      rw [List.filter_eq_nil_iff]
      intro c hc
      simp [h c hc]
    have hnorm : normalize_url s = "" := by
      rw [normalize_url_eq_filter, hfil]
    refine ⟨hnorm, ?_⟩
    intro urls
    show dedupeGo [] (s :: urls) = dedupeGo [] urls
    simp [dedupeGo, hnorm]

/-- Witness for C9 at a whitespace-only string. -/
theorem normalize_url_whitespace_witness :
    normalize_url " \t " = normalize_url "" ∧
    normalize_url " \t " = "" ∧
    dedupe_preserve_order [" \t ", "https://b.com"] = dedupe_preserve_order ["https://b.com"] :=
  ⟨(normalize_url_whitespace " \t " "").2.2.1 (by decide),
   ((normalize_url_whitespace " \t " "").2.2.2 (by decide)).1,
   ((normalize_url_whitespace " \t " "").2.2.2 (by decide)).2 ["https://b.com"]⟩

/-- One iteration of CPython's `random.shuffle`: `x[i], x[j] = x[j], x[i]`.
Out-of-range indices leave the list unchanged (they never occur in the loop). -/
def listSwap (l : List String) (i j : Nat) : List String :=
  match l.get? i, l.get? j with
  | some a, some b => (l.set i b).set j a
  | _, _ => l

/-- The loop of `random.shuffle`: for `i` in `reversed(range(1, len(x)))`,
draw `j = _randbelow(i + 1)` and swap positions `i` and `j`. `fyLoop rb k`
runs the iterations `i = k, k-1, ..., 1`. -/
def fyLoop (rb : Nat → Nat) : Nat → List String → List String
  | 0, x => x
  | k + 1, x => fyLoop rb k (listSwap x (k + 1) (rb (k + 2)))

/-- `shuffle_for_site` (build.py lines 197-204). The argument `rb` models
`random.Random(_seed_int(BASE_URL, SITE_VARIANT, scope, BUILD_NONCE))._randbelow`:
SHA-256 and the Mersenne Twister are fixed pure functions, so the bound-to-draw
map is a function of the four seed strings, applied here to
`(base, variant, nonce, scope)`. The list copy and `rr.shuffle(out)` are the
Fisher-Yates loop `fyLoop`. -/
def shuffle_for_site (rb : String → String → String → String → Nat → Nat)
    (base variant nonce scope : String) (items : List String) : List String :=
  if items.isEmpty then []
  else fyLoop (rb base variant nonce scope) (items.length - 1) items

lemma replace_perm (a b : String) :
    ∀ (t : List String) (k : Nat), t.get? k = some b → (b :: t.set k a).Perm (a :: t) := by
  intro t
  induction t with
  | nil => intro k h; simp at h
  | cons c t ih =>
    intro k h
    cases k with
    | zero =>
      simp only [List.get?] at h
      cases h
      simpa [List.set] using List.Perm.swap a b t
    | succ k =>
      simp only [List.get?] at h
      have hperm := ih k h
      have hset : ((c :: t).set (k + 1) a) = c :: t.set k a := by simp [List.set]
      rw [hset]
      exact (List.Perm.swap c b _).trans ((hperm.cons c).trans (List.Perm.swap a c t))

lemma set_set_perm (a b : String) :
    ∀ (l : List String) (i j : Nat), l.get? i = some a → l.get? j = some b →
      ((l.set i b).set j a).Perm l := by
  intro l
  induction l with
  | nil => intro i j h1 _; simp at h1
  | cons c t ih =>
    intro i j h1 h2
    cases i with
    | zero =>
      simp only [List.get?] at h1
      cases h1
      cases j with
      | zero =>
        simp only [List.get?] at h2
        cases h2
        simp [List.set]
      | succ k =>
        simp only [List.get?] at h2
        simpa [List.set] using replace_perm a b t k h2
    | succ m =>
      cases j with
      | zero =>
        simp only [List.get?] at h1 h2
        cases h2
        simpa [List.set] using replace_perm b a t m h1
      | succ k =>
        simp only [List.get?] at h1 h2
        have := ih m k h1 h2
        simpa [List.set] using this.cons c

lemma listSwap_perm (l : List String) (i j : Nat) : (listSwap l i j).Perm l := by
  rw [listSwap]
  cases h1 : l.get? i with
  | none => exact List.Perm.refl l
  | some a =>
    cases h2 : l.get? j with
    | none => exact List.Perm.refl l
    | some b => exact set_set_perm a b l i j h1 h2

lemma fyLoop_perm (rb : Nat → Nat) : ∀ (n : Nat) (l : List String), (fyLoop rb n l).Perm l := by
  intro n
  induction n with
  | zero => intro l; exact List.Perm.refl l
  | succ k ih =>
    intro l
    exact (ih (listSwap l (k + 1) (rb (k + 2)))).trans (listSwap_perm l (k + 1) (rb (k + 2)))

/-- C8: `shuffle_for_site` is order-cosmetic and deterministic: its output is
always a permutation of the input (no item added, dropped or duplicated), and
two runs with the same `BASE_URL`, `SITE_VARIANT`, `BUILD_NONCE` and scope
(hence the same seed and the same pseudo-random draws) produce identical
output. -/
theorem shuffle_for_site_deterministic_perm
    (rb : String → String → String → String → Nat → Nat)
    (base variant nonce scope : String) (items : List String) :
    (shuffle_for_site rb base variant nonce scope items).Perm items ∧
    (∀ base2 variant2 nonce2 scope2 : String,
      base2 = base → variant2 = variant → nonce2 = nonce → scope2 = scope →
      shuffle_for_site rb base2 variant2 nonce2 scope2 items =
        shuffle_for_site rb base variant nonce scope items) := by
  constructor
  · rw [shuffle_for_site]
    by_cases h : items.isEmpty
    · rw [if_pos h]
      rw [List.isEmpty_iff.1 h]
    · rw [if_neg h]
      exact fyLoop_perm _ _ items
  · intro b2 v2 n2 s2 hb hv hn hs
    rw [hb, hv, hn, hs]

/-- Witness for C8: the permutation property and determinism at a concrete
randbelow stream, seed strings and item list. -/
theorem shuffle_for_site_deterministic_perm_witness :
    (shuffle_for_site (fun _ _ _ _ n => n - 1) "https://h.example" "netlify" "" "links"
        ["a", "b", "c"]).Perm ["a", "b", "c"] ∧
    shuffle_for_site (fun _ _ _ _ n => n - 1) "https://h.example" "netlify" "" "links"
        ["a", "b", "c"] =
      shuffle_for_site (fun _ _ _ _ n => n - 1) "https://h.example" "netlify" "" "links"
        ["a", "b", "c"] :=
  ⟨(shuffle_for_site_deterministic_perm _ "https://h.example" "netlify" "" "links"
      ["a", "b", "c"]).1,
   (shuffle_for_site_deterministic_perm _ "https://h.example" "netlify" "" "links"
      ["a", "b", "c"]).2 "https://h.example" "netlify" "" "links" rfl rfl rfl rfl⟩

/-- `abs_url` (build.py lines 183-187), with `BASE_URL` passed as `base`:
ensure a leading slash, then prepend the base URL, or make the path relative
(strip leading slashes) when no base URL is configured. -/
def abs_url (base : String) (path : String) : String :=
  let p := if path.startsWith "/" then path else "/" ++ path
  if base = "" then String.mk (p.toList.dropWhile (fun c => c = '/'))
  else base ++ p

/-- `xml.sax.saxutils.escape` on one character: `&`, `<`, `>` become entity
references (applying the three `str.replace` passes of `escape` is equivalent
to this character-wise map, since the replacements are scanned left to right
and the inserted text is never rescanned). -/
def xmlEscapeChar (c : Char) : String :=
  if c = '&' then "&amp;"
  else if c = '<' then "&lt;"
  else if c = '>' then "&gt;"
  else String.mk [c]

/-- `xml.sax.saxutils.escape` (imported as `xml_escape` in build.py). -/
def xml_escape (s : String) : String :=
  String.join (s.toList.map xmlEscapeChar)

/-- Python `sep.join(items)`. -/
def joinSep (sep : String) : List String → String
  | [] => ""
  | [x] => x
  | x :: y :: ys => x ++ sep ++ joinSep sep (y :: ys)

/-- One `<url>` element of the sitemap (build.py line 1232). -/
def sitemapEntry (built_utc : String) (u : String) : String :=
  "<url><loc>" ++ xml_escape u ++ "</loc><lastmod>" ++ built_utc ++ "Z</lastmod></url>"

/-- `build_sitemap` (build.py lines 1227-1239), returning the `sitemap.xml`
document it writes. -/
def build_sitemap (page_urls : List String) (built_utc : String) : String :=
  "<?xml version=\"1.0\" encoding=\"UTF-8\"?>\n<urlset xmlns=\"http://www.sitemaps.org/schemas/sitemap/0.9\">\n"
    ++ joinSep "\n" (page_urls.map (sitemapEntry built_utc))
    ++ "\n</urlset>\n"

/-- `grouped.setdefault(d, []).append(u)` on an insertion-ordered dict
modelled as an association list. -/
def setdefaultAppend (g : List (String × List String)) (d u : String) :
    List (String × List String) :=
  if g.any (fun p => p.1 = d) then
    g.map (fun p => if p.1 = d then (p.1, p.2 ++ [u]) else p)
  else g ++ [(d, [u])]

/-- `group_by_date` (build.py lines 166-170): group the ledger rows by date;
iteration order of the resulting dict is first-occurrence order of the dates. -/
def group_by_date (history : List (String × String)) : List (String × List String) :=
  history.foldl (fun g du => setdefaultAppend g du.1 du.2) []

/-- The `local_pages` list built in `main` (build.py lines 1373-1387): the
fixed site pages followed by one `d/<date>.html` page per ledger date. -/
def localPages (base : String) (history : List (String × String)) : List String :=
  [abs_url base "/", abs_url base "/index.html", abs_url base "/all.html",
   abs_url base "/sitemap.xml", abs_url base "/rss.xml", abs_url base "/robots.txt",
   abs_url base "/about.html", abs_url base "/status.html",
   abs_url base "/backlink-feed.xml"]
    ++ (group_by_date history).map (fun p => abs_url base ("/d/" ++ p.1 ++ ".html"))

lemma keys_setdefaultAppend (g : List (String × List String)) (d0 u0 : String) :
    (setdefaultAppend g d0 u0).map Prod.fst =
      if g.any (fun p => p.1 = d0) then g.map Prod.fst else g.map Prod.fst ++ [d0] := by
  rw [setdefaultAppend]
  by_cases h : g.any (fun p => p.1 = d0)
  · rw [if_pos h, if_pos h, List.map_map]
    apply List.map_congr_left
    intro p _
    by_cases hp : p.1 = d0 <;> simp [hp]
  · rw [if_neg h, if_neg h]
    simp

lemma mem_keys_group_aux (d : String) :
    ∀ (history : List (String × String)) (g : List (String × List String)),
      (d ∈ (history.foldl (fun g du => setdefaultAppend g du.1 du.2) g).map Prod.fst ↔
        d ∈ g.map Prod.fst ∨ d ∈ history.map Prod.fst) := by
  intro history
  induction history with
  | nil => intro g; simp
  | cons du rest ih =>
    intro g
    rw [List.foldl_cons, ih]
    rw [keys_setdefaultAppend]
    by_cases h : g.any (fun p => p.1 = du.1)
    · rw [if_pos h]
      have hd : du.1 ∈ g.map Prod.fst := by
        rcases List.any_eq_true.1 h with ⟨p, hp, hpd⟩
        have : p.1 = du.1 := by simpa using hpd
        exact this ▸ List.mem_map.2 ⟨p, hp, rfl⟩
      constructor
      · rintro (hg | hr)
        · exact Or.inl hg
        · exact Or.inr (List.mem_cons_of_mem _ hr)
      · rintro (hg | hr)
        · exact Or.inl hg
        · rcases List.mem_cons.1 hr with hd1 | hr2
          · exact Or.inl (by rw [hd1]; simpa using hd)
          · exact Or.inr hr2
    · rw [if_neg h]
      simp only [List.mem_append, List.mem_singleton, List.map_cons, List.mem_cons]
      constructor
      · rintro ((hg | hd1) | hr)
        · exact Or.inl hg
        · exact Or.inr (Or.inl (by simpa using hd1))
        · exact Or.inr (Or.inr hr)
      · rintro (hg | hd1 | hr)
        · exact Or.inl (Or.inl hg)
        · exact Or.inl (Or.inr (by simpa using hd1))
        · exact Or.inr hr

lemma mem_keys_group (d : String) (history : List (String × String)) :
    d ∈ (group_by_date history).map Prod.fst ↔ d ∈ history.map Prod.fst := by
  rw [group_by_date, mem_keys_group_aux]
  simp

lemma joinSep_mem_split (sep a : String) :
    ∀ l : List String, a ∈ l → ∃ s t, joinSep sep l = s ++ a ++ t := by
  intro l
  induction l with
  | nil => intro h; simp at h
  | cons x xs ih =>
    intro h
    cases xs with
    | nil =>
      rcases List.mem_singleton.1 h with rfl
      exact ⟨"", "", by simp [joinSep]⟩
    | cons y ys =>
      rcases List.mem_cons.1 h with rfl | hmem
      · exact ⟨"", sep ++ joinSep sep (y :: ys), by
          rw [joinSep]
          simp [String.append_assoc]⟩
      · rcases ih hmem with ⟨s, t, hst⟩
        exact ⟨x ++ sep ++ s, t, by
          rw [joinSep, hst]
          simp [String.append_assoc]⟩

/-- C5: every date appearing in the history ledger has a `<url>` entry in the
generated `sitemap.xml` whose `<loc>` is the absolute URL of `d/<date>.html`. -/
theorem sitemap_contains_every_history_date (base built d : String)
    (history : List (String × String)) (h : d ∈ history.map Prod.fst) :
    ∃ s t, build_sitemap (localPages base history) built =
      s ++ ("<url><loc>" ++ xml_escape (abs_url base ("/d/" ++ d ++ ".html")) ++
        "</loc><lastmod>" ++ built ++ "Z</lastmod></url>") ++ t := by
  have hkey : d ∈ (group_by_date history).map Prod.fst := (mem_keys_group d history).2 h
  rcases List.mem_map.1 hkey with ⟨p, hp, hpd⟩
  have hpage : abs_url base ("/d/" ++ d ++ ".html") ∈ localPages base history := by
    rw [localPages]
    refine List.mem_append.2 (Or.inr ?_)
    exact List.mem_map.2 ⟨p, hp, by rw [hpd]⟩
  have hentry : sitemapEntry built (abs_url base ("/d/" ++ d ++ ".html")) ∈
      (localPages base history).map (sitemapEntry built) :=
    List.mem_map.2 ⟨_, hpage, rfl⟩
  rcases joinSep_mem_split "\n" _ _ hentry with ⟨s, t, hst⟩
  refine ⟨"<?xml version=\"1.0\" encoding=\"UTF-8\"?>\n<urlset xmlns=\"http://www.sitemaps.org/schemas/sitemap/0.9\">\n"
      ++ s, t ++ "\n</urlset>\n", ?_⟩
  rw [build_sitemap, hst]
  rw [sitemapEntry]
  simp [String.append_assoc]

/-- Witness for C5 at a concrete one-row ledger. -/
theorem sitemap_contains_every_history_date_witness :
    ∃ s t, build_sitemap
        (localPages "https://hub.example" [("2026-01-02", "https://x.example/a")])
        "2026-01-02 03:04:05" =
      s ++ ("<url><loc>" ++
        xml_escape (abs_url "https://hub.example" ("/d/" ++ "2026-01-02" ++ ".html")) ++
        "</loc><lastmod>" ++ "2026-01-02 03:04:05" ++ "Z</lastmod></url>") ++ t :=
  sitemap_contains_every_history_date "https://hub.example" "2026-01-02 03:04:05"
    "2026-01-02" [("2026-01-02", "https://x.example/a")] (by decide)

/-- ASCII digit test. -/
def isDigitCh (c : Char) : Bool :=
  decide ('0' ≤ c ∧ c ≤ '9')

/-- Numeric value of an ASCII digit. -/
def digitVal (c : Char) : Nat :=
  c.toNat - '0'.toNat

/-- `strptime`'s `%Y` directive: exactly four digits. -/
def parse4Digits : List Char → Option (Nat × List Char)
  | a :: b :: c :: d :: rest =>
    if isDigitCh a ∧ isDigitCh b ∧ isDigitCh c ∧ isDigitCh d then
      some (1000 * digitVal a + 100 * digitVal b + 10 * digitVal c + digitVal d, rest)
    else none
  | _ => none

/-- A two-character-or-one-digit numeric directive of `strptime`, given the
admissible two-character prefixes and one-digit values. CPython's `_strptime`
regexes list the two-character alternatives before the one-digit ones; because
the second character of every two-character alternative is a digit and each
directive here is followed by a non-digit literal, and because no first
character is shared between a two-character and a one-digit alternative except
when both are digits, the regex alternation is equivalent to this greedy
parse. A two-character match whose first character is the padding space (only
`%d` admits one) has the value of its digit. -/
def parse2or1 (twoOk : Char → Char → Bool) (oneOk : Char → Bool) :
    List Char → Option (Nat × List Char)
  | a :: b :: rest =>
    if twoOk a b then some ((if a = ' ' then 0 else 10 * digitVal a) + digitVal b, rest)
    else if oneOk a then some (digitVal a, b :: rest)
    else none
  | [a] => if oneOk a then some (digitVal a, []) else none
  | [] => none

/-- A literal character of the `strptime` format string. CPython compiles the
whole format regex with `re.IGNORECASE` (`_strptime.TimeRE.compile`), so the
letters `T` and `Z` also match their lowercase forms; for this format's
literals ASCII case folding is exact (no other character case-folds to `t`,
`z`, `-` or `:`). -/
def parseLitCI (c : Char) : List Char → Option (List Char)
  | x :: rest => if asciiLower x = asciiLower c then some rest else none
  | [] => none

/-- `%m`: the regex `1[0-2]|0[1-9]|[1-9]`. -/
def monthTwoOk (a b : Char) : Bool :=
  decide ((a = '1' ∧ '0' ≤ b ∧ b ≤ '2') ∨ (a = '0' ∧ '1' ≤ b ∧ b ≤ '9'))

/-- `%d`: the regex `3[0-1]|[1-2]\d|0[1-9]|[1-9]| [1-9]` (its two-character
alternatives, including the space-padded day ` [1-9]`). -/
def dayTwoOk (a b : Char) : Bool :=
  decide ((a = '3' ∧ (b = '0' ∨ b = '1')) ∨ ((a = '1' ∨ a = '2') ∧ '0' ≤ b ∧ b ≤ '9') ∨
    (a = '0' ∧ '1' ≤ b ∧ b ≤ '9') ∨ (a = ' ' ∧ '1' ≤ b ∧ b ≤ '9'))

/-- `%H`: the regex `2[0-3]|[0-1]\d|\d` (two-digit alternatives). -/
def hourTwoOk (a b : Char) : Bool :=
  decide ((a = '2' ∧ '0' ≤ b ∧ b ≤ '3') ∨ ((a = '0' ∨ a = '1') ∧ '0' ≤ b ∧ b ≤ '9'))

/-- `%M`: the regex `[0-5]\d|\d` (two-digit alternative). -/
def minuteTwoOk (a b : Char) : Bool :=
  decide (('0' ≤ a ∧ a ≤ '5') ∧ '0' ≤ b ∧ b ≤ '9')

/-- `%S`: the regex `6[0-1]|[0-5]\d|\d` (two-digit alternatives). -/
def secondTwoOk (a b : Char) : Bool :=
  decide ((a = '6' ∧ (b = '0' ∨ b = '1')) ∨ (('0' ≤ a ∧ a ≤ '5') ∧ '0' ≤ b ∧ b ≤ '9'))

/-- One-digit value `[1-9]` (months and days). -/
def nonzeroDigitOk (a : Char) : Bool :=
  decide ('1' ≤ a ∧ a ≤ '9')

/-- Python's leap-year rule (`calendar.isleap` / `datetime`). -/
def isLeapYear (y : Nat) : Bool :=
  decide ((y % 4 = 0 ∧ y % 100 ≠ 0) ∨ y % 400 = 0)

/-- Length of a month as used by `datetime`'s day-of-month validation. -/
def daysInMonth (y m : Nat) : Nat :=
  if m = 2 then (if isLeapYear y then 29 else 28)
  else if m = 4 ∨ m = 6 ∨ m = 9 ∨ m = 11 then 30
  else 31

/-- Days in year `y` strictly before month `m` (for `m` in `1..12`). -/
def daysBeforeMonth (y : Nat) : Nat → Nat
  | 0 => 0
  | 1 => 0
  | m + 1 => daysBeforeMonth y m + daysInMonth y m

/-- `datetime.date.toordinal()`: day number of `(y, m, d)` in the proleptic
Gregorian calendar, with day 1 = 0001-01-01. -/
def toOrdinal (y m d : Nat) : Nat :=
  365 * (y - 1) + (y - 1) / 4 - (y - 1) / 100 + (y - 1) / 400 + daysBeforeMonth y m + d

/-- `datetime.strptime(s, "%Y-%m-%dT%H:%M:%SZ")`, returning the instant as
seconds since day 0 of the proleptic Gregorian calendar, or `none` when
parsing raises `ValueError`. The format regex is compiled with
`re.IGNORECASE`, so the `T` and `Z` literals also match lowercase, and `%d`
accepts a space-padded day. The regex must consume the entire string, and the
`datetime` constructor additionally requires year >= 1, a day that exists in
the month, and seconds <= 59. -/
def strptimeTsZ (s : String) : Option Nat := do
  let (y, l1) ← parse4Digits s.toList
  let l2 ← parseLitCI '-' l1
  let (mo, l3) ← parse2or1 monthTwoOk nonzeroDigitOk l2
  let l4 ← parseLitCI '-' l3
  let (d, l5) ← parse2or1 dayTwoOk nonzeroDigitOk l4
  let l6 ← parseLitCI 'T' l5
  let (h, l7) ← parse2or1 hourTwoOk isDigitCh l6
  let l8 ← parseLitCI ':' l7
  let (mi, l9) ← parse2or1 minuteTwoOk isDigitCh l8
  let l10 ← parseLitCI ':' l9
  let (sec, l11) ← parse2or1 secondTwoOk isDigitCh l10
  let l12 ← parseLitCI 'Z' l11
  if l12 = [] ∧ 1 ≤ y ∧ d ≤ daysInMonth y mo ∧ sec ≤ 59 then
    some (toOrdinal y mo d * 86400 + h * 3600 + mi * 60 + sec)
  else none

/-- `_days_old` (build.py lines 360-365), with `datetime.utcnow()` passed as
`now` (seconds, same epoch as `strptimeTsZ`): the `timedelta.days` of the age
(floor division by one day), or `999999` when parsing fails. -/
def _days_old (now : Int) (utc_z : String) : Int :=
  match strptimeTsZ utc_z with
  | some t => Int.fdiv (now - (t : Int)) 86400
  | none => 999999

example : strptimeTsZ "2026-01-01T00:00:00Z" = some (739617 * 86400) := by decide

example : strptimeTsZ "2026-1-2T3:4:5Z" =
    some ((739617 + 1) * 86400 + 3 * 3600 + 4 * 60 + 5) := by decide

example : strptimeTsZ "2026-13-01T00:00:00Z" = none := by decide

example : strptimeTsZ "2026-02-30T00:00:00Z" = none := by decide

example : strptimeTsZ "2024-02-29T00:00:00Z" ≠ none := by decide

example : strptimeTsZ "2026-01-02T03:04:60Z" = none := by decide

example : strptimeTsZ "2026-01-02T03:04:05Z extra" = none := by decide

example : strptimeTsZ "" = none := by decide

example : strptimeTsZ "2026-01-01t00:00:00z" = some (739617 * 86400) := by decide

example : strptimeTsZ "2026-01- 2T03:04:05Z" =
    some ((739617 + 1) * 86400 + 3 * 3600 + 4 * 60 + 5) := by decide

example : strptimeTsZ "2026-01- 0T00:00:00Z" = none := by decide

example : strptimeTsZ "2026- 1-02T00:00:00Z" = none := by decide

example : strptimeTsZ "2026-01-02T 3:04:05Z" = none := by decide

example : _days_old (739617 * 86400 + 86400 * 20) "2026-01-01T00:00:00Z" = 20 := by decide

example : _days_old 0 "garbage" = 999999 := by decide

/-- `startsWithList n l`: `l` begins with `n`. -/
def startsWithList : List Char → List Char → Bool
  | [], _ => true
  | _ :: _, [] => false
  | a :: as, b :: bs => a = b && startsWithList as bs

/-- Helper for Python's substring test `needle in hay`. -/
def isSubstrGo (n : List Char) : List Char → Bool
  | [] => n.isEmpty
  | c :: rest => startsWithList n (c :: rest) || isSubstrGo n rest

/-- Python `needle in hay` on strings. -/
def strContains (hay needle : String) : Bool :=
  isSubstrGo needle.toList hay.toList

/-- `urlparse(url).netloc` for the URLs this script feeds to it (they match
`^https?://`, so the scheme is valid and the netloc is the text between the
first `://` and the next `/`, `?` or `#`). Returns `""` when there is no
`://`. -/
def afterSchemeSep : List Char → Option (List Char)
  | ':' :: '/' :: '/' :: rest => some rest
  | _ :: rest => afterSchemeSep rest
  | [] => none

/-- `urlparse(url).netloc` (see `afterSchemeSep`). -/
def netlocOf (url : String) : String :=
  match afterSchemeSep url.toList with
  | some rest => String.mk (rest.takeWhile (fun c => !decide (c = '/' ∨ c = '?' ∨ c = '#')))
  | none => ""

/-- `_guess_kind` (build.py lines 386-402): coarse content kind from the
lower-cased hostname. -/
def _guess_kind (url : String) : String :=
  let host := strLower (netlocOf url)
  if strContains host "youtube.com" || strContains host "youtu.be" then "video"
  else if strContains host "soundcloud.com" then "audio"
  else if strContains host "github.com" then "repository"
  else if strContains host "slideshare.net" then "presentation"
  else if strContains host "quora.com" then "qa"
  else if strContains host "trustpilot." then "review"
  else if strContains host "about.me" then "profile"
  else "website"

example : _guess_kind "https://www.youtube.com/watch?v=1" = "video" := by decide

example : _guess_kind "https://example.org/a" = "website" := by decide

/-- `re.sub(r"\s+", " ", ...)`: collapse every whitespace run to one space. -/
def collapseWs (l : List Char) : List Char :=
  match l with
  | [] => []
  | c :: rest =>
    if pySpace c then ' ' :: collapseWs (rest.dropWhile pySpace)
    else c :: collapseWs rest
termination_by l.length
decreasing_by
  · simp_wf
    exact Nat.lt_succ_of_le (List.dropWhile_sublist pySpace).length_le
  · simp_wf

/-- String form of `collapseWs`. -/
def collapseWsStr (s : String) : String :=
  String.mk (collapseWs s.toList)

/-- The dict returned by `_fetch_basic_meta`: on success the `error` field is
absent in Python, modelled here as `""`. -/
structure FetchResult where
  http_status : Int
  error : String
  title : String
  description : String
  content_type : String
deriving Repr, DecidableEq

/-- A decoded HTTP response: `int(resp.status)`, the decoded first 220000
bytes, and the lower-cased `Content-Type` header. -/
structure RawResponse where
  status : Int
  text : String
  content_type : String
deriving Repr, DecidableEq

/-- `_fetch_basic_meta` (build.py lines 404-438). The network request is the
oracle `resp` (`Except.error e` models `urlopen`/`read` raising an exception
whose string form is `e`). `titleGroup` and `descGroup` are oracles for the
group-1 text of `re.search` with the `<title[^>]*>(.*?)</title>` and
`<meta ... name="description" ... content="..."` patterns (pure but large
regex semantics, left abstract); `unescape` models `html.unescape` with its
full HTML5 entity table. The post-processing of a matched group — collapse
whitespace, strip, unescape, truncate — is concrete. -/
def _fetch_basic_meta (unescape : String → String)
    (titleGroup descGroup : String → Option String)
    (resp : Except String RawResponse) : FetchResult :=
  match resp with
  | Except.error e =>
    { http_status := 0, error := e, title := "", description := "", content_type := "" }
  | Except.ok r =>
    let title :=
      match titleGroup r.text with
      | some g => unescape (pyStrip (collapseWsStr g))
      | none => ""
    let desc :=
      match descGroup r.text with
      | some g => unescape (pyStrip (collapseWsStr g))
      | none => ""
    { http_status := r.status, error := "",
      title := title.take 180, description := desc.take 320,
      content_type := r.content_type.take 120 }

/-- C6: if the HTTP GET raises any exception, `_fetch_basic_meta` returns a
record with `http_status = 0` and empty title and description instead of
propagating the error (it is a total function of the response oracle, so
enrichment never fails on a fetch error). -/
theorem fetch_basic_meta_error_degrades (unescape : String → String)
    (titleGroup descGroup : String → Option String) (e : String) :
    _fetch_basic_meta unescape titleGroup descGroup (Except.error e) =
      { http_status := 0, error := e, title := "", description := "",
        content_type := "" } := rfl

/-- An entry of the `items` mapping of `enriched.json` (build.py lines
524-533). -/
structure EnrichEntry where
  url : String
  kind : String
  http_status : Int
  title : String
  description : String
  summary : String
  topics : List String
  fetched_utc : String
deriving Repr, DecidableEq

/-- The non-empty dict returned by `_gemini_summary` (its `title`, `summary`,
`topics` keys); `none` models the empty dict (AI unavailable or invalid). -/
structure AIOut where
  title : String
  summary : String
  topics : List String
deriving Repr, DecidableEq

/-- `items.get(k)` on an insertion-ordered dict as association list (first
binding wins; the script's dicts have unique keys). -/
def lookupAL {β : Type} : List (String × β) → String → Option β
  | [], _ => none
  | p :: t, k => if p.1 = k then some p.2 else lookupAL t k

/-- `items[k] = v` on an insertion-ordered dict: replace in place if the key
exists, else append. -/
def insertAL {β : Type} (l : List (String × β)) (k : String) (v : β) : List (String × β) :=
  if l.any (fun p => p.1 = k) then l.map (fun p => if p.1 = k then (k, v) else p)
  else l ++ [(k, v)]

/-- The configuration and clock under which one `enrich_urls` run executes:
`now` is `datetime.utcnow()` in seconds, `ttl` is `ENRICH_TTL_DAYS`,
`nowIsoZ` is the `utc_now_iso_z()` stamp written into refreshed entries,
`enableAI`/`apiKey`/`maxAICalls` are `ENABLE_AI`, `GEMINI_API_KEY` and
`MAX_AI_CALLS`. -/
structure EnrichCfg where
  now : Int
  ttl : Int
  nowIsoZ : String
  enableAI : Bool
  apiKey : String
  maxAICalls : Int

/-- The mutable state of the `enrich_urls` loop: the `items` dict, the
`ai_calls_left` counter, and (model instrumentation) the list of URLs for
which `_fetch_basic_meta` has been invoked, in call order. -/
structure EnrichState where
  items : List (String × EnrichEntry)
  aiLeft : Int
  fetchedLog : List String
deriving Repr, DecidableEq

/-- The refresh decision of `enrich_urls` (build.py lines 510-515):
`needs_refresh = True`, overridden to `_days_old(fetched_utc) >= ENRICH_TTL_DAYS`
when the stripped cached `fetched_utc` is non-empty. -/
def needs_refresh (cfg : EnrichCfg) (cur : Option EnrichEntry) : Bool :=
  let f := pyStrip (match cur with | some e => e.fetched_utc | none => "")
  if f = "" then true else decide (_days_old cfg.now f ≥ cfg.ttl)

/-- The body of the refresh branch of `enrich_urls` (build.py lines 520-552):
build the new entry from the fetched metadata, optionally overlay the AI
summary (decrementing the budget), and apply the non-AI fallback summary.
Returns the new entry and the new `ai_calls_left`. `basic` is the result of
`_fetch_basic_meta(u)`. -/
def enrichedEntry (cfg : EnrichCfg)
    (ai : String → String → String → String → Option AIOut)
    (aiLeft : Int) (u : String) (basic : FetchResult) : EnrichEntry × Int :=
  let kind := _guess_kind u
  let title := pyStrip basic.title
  let desc := pyStrip basic.description
  let out0 : EnrichEntry :=
    { url := u, kind := kind, http_status := basic.http_status,
      title := title.take 180, description := desc.take 320,
      summary := "", topics := [], fetched_utc := cfg.nowIsoZ }
  let doAI := cfg.enableAI ∧ cfg.apiKey ≠ "" ∧ aiLeft > 0
  let aiLeft2 := if doAI then aiLeft - 1 else aiLeft
  let out1 :=
    if doAI then
      match ai u kind title desc with
      | some r =>
        { out0 with
          title := (pyStrip (if r.title = "" then out0.title else r.title)).take 180,
          summary := (pyStrip r.summary).take 420,
          topics := r.topics }
      | none => out0
    else out0
  let out2 :=
    if out1.summary = "" then
      { out1 with
        summary := if desc ≠ "" then desc.take 360
                   else if title ≠ "" then title.take 260 else "" }
    else out1
  (out2, aiLeft2)

/-- One iteration of the `for u in target_urls` loop of `enrich_urls`
(build.py lines 505-556): skip non-`^https?://` strings, skip entries that do
not need a refresh, otherwise fetch, rebuild the entry and store it. -/
def enrichStep (cfg : EnrichCfg) (fetch : String → FetchResult)
    (ai : String → String → String → String → Option AIOut)
    (st : EnrichState) (u : String) : EnrichState :=
  if urlReMatch u then
    if needs_refresh cfg (lookupAL st.items u) then
      let r := enrichedEntry cfg ai st.aiLeft u (fetch u)
      { items := insertAL st.items u r.1, aiLeft := r.2,
        fetchedLog := st.fetchedLog ++ [u] }
    else st
  else st

/-- `enrich_urls` (build.py lines 496-560), with the cache's `items` mapping
passed in as `items0`, the network as the `fetch` oracle (the composite
`_fetch_basic_meta` result per URL) and `_gemini_summary` as the `ai` oracle.
Returns the final loop state; the whole-cache JSON write-back persists
`.items`. -/
def enrich_urls (cfg : EnrichCfg) (fetch : String → FetchResult)
    (ai : String → String → String → String → Option AIOut)
    (items0 : List (String × EnrichEntry)) (target_urls : List String) : EnrichState :=
  target_urls.foldl (enrichStep cfg fetch ai) ⟨items0, cfg.maxAICalls, []⟩

lemma lookupAL_map_update {β : Type} (k u : String) (v : β) (h : k ≠ u) :
    ∀ l : List (String × β),
      lookupAL (l.map (fun p => if p.1 = k then (k, v) else p)) u = lookupAL l u := by
  intro l
  induction l with
  | nil => rfl
  | cons p t ih =>
    by_cases hp : p.1 = k
    · have hpu : ¬ p.1 = u := by rw [hp]; exact h
      simp [lookupAL, hp, h, hpu, ih]
    · have huk : ¬ u = k := fun hh => h hh.symm
      by_cases hpu : p.1 = u <;> simp [lookupAL, hp, hpu, huk, ih]

lemma lookupAL_append_single {β : Type} (k u : String) (v : β) (h : k ≠ u) :
    ∀ l : List (String × β), lookupAL (l ++ [(k, v)]) u = lookupAL l u := by
  intro l
  induction l with
  | nil => simp [lookupAL, h]
  | cons p t ih =>
    by_cases hpu : p.1 = u <;> simp [lookupAL, hpu, ih]

lemma lookupAL_insertAL_ne {β : Type} (l : List (String × β)) (k u : String) (v : β)
    (h : k ≠ u) : lookupAL (insertAL l k v) u = lookupAL l u := by
  rw [insertAL]
  by_cases hany : l.any (fun p => p.1 = k)
  · rw [if_pos hany]; exact lookupAL_map_update k u v h l
  · rw [if_neg hany]; exact lookupAL_append_single k u v h l

lemma lookupAL_map_update_self {β : Type} (k : String) (v : β) :
    ∀ l : List (String × β), l.any (fun p => p.1 = k) = true →
      lookupAL (l.map (fun p => if p.1 = k then (k, v) else p)) k = some v := by
  intro l
  induction l with
  | nil => intro h; simp at h
  | cons p t ih =>
    intro h
    by_cases hp : p.1 = k
    · simp [lookupAL, hp]
    · have ht : t.any (fun p => p.1 = k) = true := by
        rcases List.any_eq_true.1 h with ⟨q, hq, hqk⟩
        rcases List.mem_cons.1 hq with rfl | hq2
        · exact absurd (by simpa using hqk) hp
        · exact List.any_eq_true.2 ⟨q, hq2, hqk⟩
      simp [lookupAL, hp, ih ht]

lemma lookupAL_append_single_self {β : Type} (k : String) (v : β) :
    ∀ l : List (String × β), l.any (fun p => p.1 = k) = false →
      lookupAL (l ++ [(k, v)]) k = some v := by
  intro l
  induction l with
  | nil => simp [lookupAL]
  | cons p t ih =>
    intro h
    simp only [List.any_cons, Bool.or_eq_false_iff] at h
    have hp : ¬ p.1 = k := by simpa using h.1
    simp [lookupAL, hp, ih h.2]

lemma lookupAL_insertAL_self {β : Type} (l : List (String × β)) (k : String) (v : β) :
    lookupAL (insertAL l k v) k = some v := by
  rw [insertAL]
  by_cases hany : l.any (fun p => p.1 = k)
  · rw [if_pos hany]; exact lookupAL_map_update_self k v l hany
  · rw [if_neg hany]; exact lookupAL_append_single_self k v l (Bool.eq_false_iff.2 hany)

lemma enrichedEntry_fetched_utc (cfg : EnrichCfg)
    (ai : String → String → String → String → Option AIOut)
    (n : Int) (u : String) (b : FetchResult) :
    (enrichedEntry cfg ai n u b).1.fetched_utc = cfg.nowIsoZ := by
  rw [enrichedEntry]
  dsimp only
  repeat' split
  all_goals rfl

lemma enrichStep_ne (cfg : EnrichCfg) (fetch : String → FetchResult)
    (ai : String → String → String → String → Option AIOut)
    (st : EnrichState) {t u : String} (h : t ≠ u) :
    lookupAL (enrichStep cfg fetch ai st t).items u = lookupAL st.items u ∧
    (u ∈ (enrichStep cfg fetch ai st t).fetchedLog ↔ u ∈ st.fetchedLog) := by
  rw [enrichStep]
  by_cases h1 : urlReMatch t
  · rw [if_pos h1]
    by_cases h2 : needs_refresh cfg (lookupAL st.items t)
    · rw [if_pos h2]
      dsimp only
      constructor
      · exact lookupAL_insertAL_ne st.items t u _ h
      · have hut : ¬ u = t := fun hh => h hh.symm
        simp [List.mem_append, hut]
    · rw [if_neg h2]; exact ⟨rfl, Iff.rfl⟩
  · rw [if_neg h1]; exact ⟨rfl, Iff.rfl⟩

lemma enrichStep_log_mono (cfg : EnrichCfg) (fetch : String → FetchResult)
    (ai : String → String → String → String → Option AIOut)
    (st : EnrichState) (t u : String) (h : u ∈ st.fetchedLog) :
    u ∈ (enrichStep cfg fetch ai st t).fetchedLog := by
  rw [enrichStep]
  by_cases h1 : urlReMatch t
  · rw [if_pos h1]
    by_cases h2 : needs_refresh cfg (lookupAL st.items t)
    · rw [if_pos h2]
      dsimp only
      exact List.mem_append.2 (Or.inl h)
    · rw [if_neg h2]; exact h
  · rw [if_neg h1]; exact h

lemma enrichStep_reuse (cfg : EnrichCfg) (fetch : String → FetchResult)
    (ai : String → String → String → String → Option AIOut)
    (st : EnrichState) (u : String)
    (h2 : needs_refresh cfg (lookupAL st.items u) = false) :
    enrichStep cfg fetch ai st u = st := by
  rw [enrichStep]
  by_cases h1 : urlReMatch u
  · rw [if_pos h1, if_neg (by simp [h2])]
  · rw [if_neg h1]

lemma enrichStep_refresh (cfg : EnrichCfg) (fetch : String → FetchResult)
    (ai : String → String → String → String → Option AIOut)
    (st : EnrichState) (u : String)
    (h1 : urlReMatch u = true)
    (h2 : needs_refresh cfg (lookupAL st.items u) = true) :
    lookupAL (enrichStep cfg fetch ai st u).items u =
      some (enrichedEntry cfg ai st.aiLeft u (fetch u)).1 ∧
    u ∈ (enrichStep cfg fetch ai st u).fetchedLog := by
  rw [enrichStep, if_pos h1, if_pos h2]
  dsimp only
  exact ⟨lookupAL_insertAL_self st.items u _, List.mem_append.2 (Or.inr (by simp))⟩

lemma enrichStep_keeps (cfg : EnrichCfg) (fetch : String → FetchResult)
    (ai : String → String → String → String → Option AIOut)
    (st : EnrichState) (t u : String)
    (h : ∃ e, lookupAL st.items u = some e ∧ e.fetched_utc = cfg.nowIsoZ)
    (hlog : u ∈ st.fetchedLog) :
    (∃ e, lookupAL (enrichStep cfg fetch ai st t).items u = some e ∧
      e.fetched_utc = cfg.nowIsoZ) ∧
    u ∈ (enrichStep cfg fetch ai st t).fetchedLog := by
  refine ⟨?_, enrichStep_log_mono cfg fetch ai st t u hlog⟩
  by_cases ht : t = u
  · subst ht
    by_cases h1 : urlReMatch t
    · by_cases h2 : needs_refresh cfg (lookupAL st.items t)
      · rcases enrichStep_refresh cfg fetch ai st t h1 h2 with ⟨hl, _⟩
        exact ⟨_, hl, enrichedEntry_fetched_utc cfg ai st.aiLeft t (fetch t)⟩
      · rw [enrichStep_reuse cfg fetch ai st t (Bool.eq_false_iff.2 h2)]
        exact h
    · rw [show enrichStep cfg fetch ai st t = st by rw [enrichStep, if_neg h1]]
      exact h
  · rw [(enrichStep_ne cfg fetch ai st ht).1]
    exact h

lemma enrichFold_keeps (cfg : EnrichCfg) (fetch : String → FetchResult)
    (ai : String → String → String → String → Option AIOut) (u : String) :
    ∀ (targets : List String) (st : EnrichState),
      (∃ e, lookupAL st.items u = some e ∧ e.fetched_utc = cfg.nowIsoZ) →
      u ∈ st.fetchedLog →
      (∃ e, lookupAL ((targets.foldl (enrichStep cfg fetch ai) st).items) u = some e ∧
        e.fetched_utc = cfg.nowIsoZ) ∧
      u ∈ (targets.foldl (enrichStep cfg fetch ai) st).fetchedLog := by
  intro targets
  induction targets with
  | nil => intro st h hlog; exact ⟨h, hlog⟩
  | cons t rest ih =>
    intro st h hlog
    rw [List.foldl_cons]
    rcases enrichStep_keeps cfg fetch ai st t u h hlog with ⟨h', hlog'⟩
    exact ih _ h' hlog'

lemma enrichFold_reuse (cfg : EnrichCfg) (fetch : String → FetchResult)
    (ai : String → String → String → String → Option AIOut) (u : String) :
    ∀ (targets : List String) (st : EnrichState),
      needs_refresh cfg (lookupAL st.items u) = false →
      lookupAL ((targets.foldl (enrichStep cfg fetch ai) st).items) u = lookupAL st.items u ∧
      (u ∉ st.fetchedLog → u ∉ (targets.foldl (enrichStep cfg fetch ai) st).fetchedLog) := by
  intro targets
  induction targets with
  | nil => intro st h; exact ⟨rfl, fun hn => hn⟩
  | cons t rest ih =>
    intro st h
    rw [List.foldl_cons]
    by_cases ht : t = u
    · subst ht
      rw [enrichStep_reuse cfg fetch ai st t h]
      exact ih st h
    · have hne := enrichStep_ne cfg fetch ai st ht
      have h' : needs_refresh cfg (lookupAL (enrichStep cfg fetch ai st t).items u) = false := by
        rw [hne.1]; exact h
      rcases ih (enrichStep cfg fetch ai st t) h' with ⟨ha, hb⟩
      refine ⟨by rw [ha, hne.1], ?_⟩
      intro hnot
      exact hb (fun hmem => hnot (hne.2.1 hmem))

lemma enrichFold_refresh (cfg : EnrichCfg) (fetch : String → FetchResult)
    (ai : String → String → String → String → Option AIOut) (u : String)
    (h1 : urlReMatch u = true) :
    ∀ (targets : List String) (st : EnrichState),
      u ∈ targets →
      needs_refresh cfg (lookupAL st.items u) = true →
      (∃ e, lookupAL ((targets.foldl (enrichStep cfg fetch ai) st).items) u = some e ∧
        e.fetched_utc = cfg.nowIsoZ) ∧
      u ∈ (targets.foldl (enrichStep cfg fetch ai) st).fetchedLog := by
  intro targets
  induction targets with
  | nil => intro st hmem; simp at hmem
  | cons t rest ih =>
    intro st hmem hneed
    rw [List.foldl_cons]
    by_cases ht : t = u
    · subst ht
      rcases enrichStep_refresh cfg fetch ai st t h1 hneed with ⟨hl, hlog⟩
      exact enrichFold_keeps cfg fetch ai t rest _
        ⟨_, hl, enrichedEntry_fetched_utc cfg ai st.aiLeft t (fetch t)⟩ hlog
    · have hmem' : u ∈ rest := by
        rcases List.mem_cons.1 hmem with hh | hh
        · exact absurd hh.symm ht
        · exact hh
      have hne := enrichStep_ne cfg fetch ai st ht
      have hneed' : needs_refresh cfg (lookupAL (enrichStep cfg fetch ai st t).items u) = true := by
        rw [hne.1]; exact hneed
      exact ih _ hmem' hneed'

lemma strptimeTsZ_ne_empty {f : String} {t : Nat} (h : strptimeTsZ f = some t) : f ≠ "" := by
  intro hf
  rw [hf, show strptimeTsZ "" = none from rfl] at h
  exact Option.noConfusion h

lemma days_old_eq_of_parse {now : Int} {f : String} {t : Nat} (h : strptimeTsZ f = some t) :
    _days_old now f = Int.fdiv (now - t) 86400 := by
  simp [_days_old, h]

lemma needs_refresh_fresh (cfg : EnrichCfg) (e : EnrichEntry) {t : Nat}
    (hp : strptimeTsZ (pyStrip e.fetched_utc) = some t)
    (hy : cfg.now - t < cfg.ttl * 86400) :
    needs_refresh cfg (some e) = false := by
  rw [needs_refresh]
  dsimp only
  rw [if_neg (strptimeTsZ_ne_empty hp)]
  refine decide_eq_false (not_le.2 ?_)
  rw [days_old_eq_of_parse hp, Int.fdiv_eq_ediv _ (by norm_num)]
  exact (Int.ediv_lt_iff_lt_mul (by norm_num)).2 hy

lemma needs_refresh_stale (cfg : EnrichCfg) (e : EnrichEntry) {t : Nat}
    (hp : strptimeTsZ (pyStrip e.fetched_utc) = some t)
    (hy : cfg.ttl * 86400 < cfg.now - t) :
    needs_refresh cfg (some e) = true := by
  rw [needs_refresh]
  dsimp only
  by_cases hf : pyStrip e.fetched_utc = ""
  · rw [if_pos hf]
  · rw [if_neg hf]
    refine decide_eq_true ?_
    show cfg.ttl ≤ _
    rw [days_old_eq_of_parse hp, Int.fdiv_eq_ediv _ (by norm_num)]
    exact (Int.le_ediv_iff_mul_le (by norm_num)).2 (le_of_lt hy)

lemma needs_refresh_none (cfg : EnrichCfg) : needs_refresh cfg none = true := rfl

lemma needs_refresh_unparseable (cfg : EnrichCfg) (e : EnrichEntry)
    (hf : pyStrip e.fetched_utc ≠ "")
    (hp : strptimeTsZ (pyStrip e.fetched_utc) = none)
    (httl : cfg.ttl ≤ 999999) :
    needs_refresh cfg (some e) = true := by
  rw [needs_refresh]
  dsimp only
  rw [if_neg hf]
  refine decide_eq_true ?_
  show cfg.ttl ≤ _
  simpa [_days_old, hp] using httl

/-- C4: a cached enrichment entry whose `fetched_utc` parses and is strictly
younger than `ENRICH_TTL_DAYS` days is reused verbatim by `enrich_urls` and
its URL is never fetched; an entry older than `ENRICH_TTL_DAYS` days (and an
absent entry) for a targeted `^https?://` URL is freshly fetched and replaced
by an entry stamped with the run's `fetched_utc`. -/
theorem enrich_urls_ttl_cache (cfg : EnrichCfg) (fetch : String → FetchResult)
    (ai : String → String → String → String → Option AIOut)
    (items0 : List (String × EnrichEntry)) (targets : List String) (u : String) :
    (∀ (e : EnrichEntry) (tn : Nat), lookupAL items0 u = some e →
      strptimeTsZ (pyStrip e.fetched_utc) = some tn →
      cfg.now - tn < cfg.ttl * 86400 →
      lookupAL (enrich_urls cfg fetch ai items0 targets).items u = some e ∧
        u ∉ (enrich_urls cfg fetch ai items0 targets).fetchedLog) ∧
    ((lookupAL items0 u = none ∨
        ∃ (e : EnrichEntry) (tn : Nat), lookupAL items0 u = some e ∧
          strptimeTsZ (pyStrip e.fetched_utc) = some tn ∧
          cfg.ttl * 86400 < cfg.now - tn) →
      urlReMatch u = true → u ∈ targets →
      u ∈ (enrich_urls cfg fetch ai items0 targets).fetchedLog ∧
        ∃ e2, lookupAL (enrich_urls cfg fetch ai items0 targets).items u = some e2 ∧
          e2.fetched_utc = cfg.nowIsoZ) := by
  constructor
  · intro e tn he hp hy
    have hnr : needs_refresh cfg (lookupAL items0 u) = false := by
      rw [he]; exact needs_refresh_fresh cfg e hp hy
    rcases enrichFold_reuse cfg fetch ai u targets ⟨items0, cfg.maxAICalls, []⟩ hnr with ⟨ha, hb⟩
    refine ⟨?_, ?_⟩
    · rw [enrich_urls, ha]; exact he
    · rw [enrich_urls]; exact hb (by simp)
  · intro hstale hmatch hmem
    have hnr : needs_refresh cfg (lookupAL items0 u) = true := by
      rcases hstale with hnone | ⟨e, tn, he, hp, hy⟩
      · rw [hnone]; exact needs_refresh_none cfg
      · rw [he]; exact needs_refresh_stale cfg e hp hy
    rcases enrichFold_refresh cfg fetch ai u hmatch targets ⟨items0, cfg.maxAICalls, []⟩
        hmem hnr with ⟨⟨e2, h2, h3⟩, hlog⟩
    refine ⟨?_, e2, ?_, h3⟩
    · rw [enrich_urls]; exact hlog
    · rw [enrich_urls]; exact h2

/-- Concrete data for the C4 and C10 witnesses (one run configuration: clock
one hour past 2026-01-01T00:00:00Z, TTL 14 days, AI disabled). -/
def witnessCfg : EnrichCfg :=
  ⟨63902912400, 14, "2026-01-01T01:00:00Z", false, "", 30⟩

/-- A cache entry fetched one hour ago (fresh under a 14-day TTL). -/
def witnessFresh : EnrichEntry :=
  ⟨"https://f.example", "website", 200, "T", "D", "S", [], "2026-01-01T00:00:00Z"⟩

/-- Fetch oracle for the witnesses. -/
def witnessFetch : String → FetchResult := fun _ => ⟨200, "", "", "", ""⟩

/-- AI oracle for the witnesses (disabled). -/
def witnessAI : String → String → String → String → Option AIOut := fun _ _ _ _ => none

/-- Witness for C4: the fresh entry is reused with no fetch, and the absent
targeted URL is fetched and stored with the run's timestamp. -/
theorem enrich_urls_ttl_cache_witness :
    (lookupAL (enrich_urls witnessCfg witnessFetch witnessAI
          [("https://f.example", witnessFresh)] ["https://s.example"]).items
        "https://f.example" = some witnessFresh ∧
      "https://f.example" ∉ (enrich_urls witnessCfg witnessFetch witnessAI
          [("https://f.example", witnessFresh)] ["https://s.example"]).fetchedLog) ∧
    ("https://s.example" ∈ (enrich_urls witnessCfg witnessFetch witnessAI
          [("https://f.example", witnessFresh)] ["https://s.example"]).fetchedLog ∧
      ∃ e2, lookupAL (enrich_urls witnessCfg witnessFetch witnessAI
          [("https://f.example", witnessFresh)] ["https://s.example"]).items
          "https://s.example" = some e2 ∧ e2.fetched_utc = witnessCfg.nowIsoZ) :=
  ⟨(enrich_urls_ttl_cache witnessCfg witnessFetch witnessAI
      [("https://f.example", witnessFresh)] ["https://s.example"] "https://f.example").1
      witnessFresh 63902908800 (by decide) (by decide) (by decide),
   (enrich_urls_ttl_cache witnessCfg witnessFetch witnessAI
      [("https://f.example", witnessFresh)] ["https://s.example"] "https://s.example").2
      (Or.inl (by decide)) (by decide) (by decide)⟩

/-- C10: a cached `fetched_utc` that does not parse as `%Y-%m-%dT%H:%M:%SZ`
makes `_days_old` return `999999`, so (whenever `ENRICH_TTL_DAYS <= 999999`)
the entry is treated as stale: `enrich_urls` refetches its targeted URL and
replaces the entry rather than reusing it or raising an error. -/
theorem days_old_unparseable_refresh (cfg : EnrichCfg) (fetch : String → FetchResult)
    (ai : String → String → String → String → Option AIOut)
    (items0 : List (String × EnrichEntry)) (targets : List String) (u : String)
    (e : EnrichEntry) :
    (∀ s : String, strptimeTsZ s = none → _days_old cfg.now s = 999999) ∧
    (lookupAL items0 u = some e →
      pyStrip e.fetched_utc ≠ "" →
      strptimeTsZ (pyStrip e.fetched_utc) = none →
      cfg.ttl ≤ 999999 → urlReMatch u = true → u ∈ targets →
      u ∈ (enrich_urls cfg fetch ai items0 targets).fetchedLog ∧
        ∃ e2, lookupAL (enrich_urls cfg fetch ai items0 targets).items u = some e2 ∧
          e2.fetched_utc = cfg.nowIsoZ) := by
  constructor
  · intro s hs; simp [_days_old, hs]
  · intro he hf hp httl hmatch hmem
    have hnr : needs_refresh cfg (lookupAL items0 u) = true := by
      rw [he]; exact needs_refresh_unparseable cfg e hf hp httl
    rcases enrichFold_refresh cfg fetch ai u hmatch targets ⟨items0, cfg.maxAICalls, []⟩
        hmem hnr with ⟨⟨e2, h2, h3⟩, hlog⟩
    refine ⟨?_, e2, ?_, h3⟩
    · rw [enrich_urls]; exact hlog
    · rw [enrich_urls]; exact h2

/-- A cache entry whose `fetched_utc` is non-empty but unparseable. -/
def witnessBadStamp : EnrichEntry :=
  ⟨"https://g.example", "website", 200, "T", "D", "S", [], "yesterday-ish"⟩

/-- Witness for C10: the unparseable-timestamp entry is refetched and
replaced. -/
theorem days_old_unparseable_refresh_witness :
    _days_old witnessCfg.now "yesterday-ish" = 999999 ∧
    ("https://g.example" ∈ (enrich_urls witnessCfg witnessFetch witnessAI
          [("https://g.example", witnessBadStamp)] ["https://g.example"]).fetchedLog ∧
      ∃ e2, lookupAL (enrich_urls witnessCfg witnessFetch witnessAI
          [("https://g.example", witnessBadStamp)] ["https://g.example"]).items
          "https://g.example" = some e2 ∧ e2.fetched_utc = witnessCfg.nowIsoZ) :=
  ⟨(days_old_unparseable_refresh witnessCfg witnessFetch witnessAI
      [("https://g.example", witnessBadStamp)] ["https://g.example"] "https://g.example"
      witnessBadStamp).1 "yesterday-ish" (by decide),
   (days_old_unparseable_refresh witnessCfg witnessFetch witnessAI
      [("https://g.example", witnessBadStamp)] ["https://g.example"] "https://g.example"
      witnessBadStamp).2 (by decide) (by decide) (by decide) (by decide) (by decide)
      (by decide)⟩
